import Mathlib

/-!
Verification of the numerical core of `equitrends_python.py` (EQUITRENDS
statistical package) via a shallow embedding in Lean 4.

Modelling conventions:
- Python floats are modelled as rationals (`ℚ`); the claims under study are
  structural (branch selection, exact symmetry, clipping, degrees-of-freedom
  arithmetic), not about floating-point rounding.
- External library routines (`scipy.stats.norm.cdf`, `norm.ppf`,
  `foldnorm.ppf`, `scipy.optimize.minimize`, `minimize_scalar`) are opaque
  to the repository; they are modelled as explicit function parameters.
  Where a claim needs a documented contract of such a routine (a bounded
  minimizer returns a point inside its bounds) that contract is a named
  hypothesis of the theorem.
- Python exceptions are modelled with `Except EqtError`; raising before any
  computation corresponds to the error branch of the pure function.
- `ValueError` messages fall into two families that the design document
  names `InvalidArgument` (precondition violations) and
  `DegreesOfFreedomError` (df ≤ 0 in the variance estimator); the error
  type distinguishes them accordingly.
-/

/-- Error taxonomy of the module: precondition violations
(`InvalidArgument`) versus the degrees-of-freedom failure of the variance
estimator (`DegreesOfFreedomError`). -/
inductive EqtError where
  | invalidArgument : EqtError
  | degreesOfFreedomError : EqtError
deriving DecidableEq, Repr

/-- Constant `_FOLDNORM_SD_MIN = 1e-15`: below this the distribution is treated as a
point mass. -/
def FOLDNORM_SD_MIN : ℚ := 1 / 10 ^ 15

/-- Constant `_FOLDNORM_C_MAX = 1e10`: above this shape value the normal
approximation is used. -/
def FOLDNORM_C_MAX : ℚ := 10 ^ 10

/-- Scalar clamp `np.clip(v, lo, hi)`. -/
def clip (v lo hi : ℚ) : ℚ := min (max v lo) hi

/-- Whether an `Except` value is an error (a raised exception). -/
def isError : Except EqtError ℚ → Bool
  | .error _ => true
  | .ok _ => false

/-- Value computed by `qfoldnorm` after validation has passed
(`0 < p < 1` and `sd > 0`).  `normPpf` models `scipy.stats.norm.ppf`;
`foldnormPpf p c sd` models `scipy.stats.foldnorm.ppf(p, c, loc=0,
scale=sd)`. -/
def qfoldnormVal (normPpf : ℚ → ℚ) (foldnormPpf : ℚ → ℚ → ℚ → ℚ)
    (p mean sd : ℚ) : ℚ :=
  if sd < FOLDNORM_SD_MIN then
    |mean|
  else
    let c := |mean| / sd
    if FOLDNORM_C_MAX < c then
      max 0 (|mean| + normPpf p * sd)
    else
      foldnormPpf p c sd

/-- Function `qfoldnorm(p, mean, sd)`: quantile function of the folded normal
distribution, with input validation (`_validate_probability`,
`_validate_positive`). -/
def qfoldnorm (normPpf : ℚ → ℚ) (foldnormPpf : ℚ → ℚ → ℚ → ℚ)
    (p mean sd : ℚ) : Except EqtError ℚ :=
  if ¬(0 < p ∧ p < 1) then .error .invalidArgument
  else if sd ≤ 0 then .error .invalidArgument
  else .ok (qfoldnormVal normPpf foldnormPpf p mean sd)

/-- Value computed by `pfoldnorm` after validation has passed (`x ≥ 0` and
`sd > 0`).  `Phi` models `scipy.stats.norm.cdf`. -/
def pfoldnormVal (Phi : ℚ → ℚ) (x mean sd : ℚ) : ℚ :=
  if sd < FOLDNORM_SD_MIN then
    (if |mean| ≤ x then 1 else 0)
  else
    let muAbs := |mean|
    let z1 := (x - muAbs) / sd
    let z2 := (x + muAbs) / sd
    clip (Phi z1 + Phi z2 - 1) 0 1

/-- Function `pfoldnorm(x, mean, sd)`: CDF of the folded normal distribution, with
input validation (`_validate_non_negative`, `_validate_positive`). -/
def pfoldnorm (Phi : ℚ → ℚ) (x mean sd : ℚ) : Except EqtError ℚ :=
  if x < 0 then .error .invalidArgument
  else if sd ≤ 0 then .error .invalidArgument
  else .ok (pfoldnormVal Phi x mean sd)

/-- The two-term formula of the design document, transcribed from its own
words for comparison with the code: `Φ((x−|μ|)/σ) + Φ((x+|μ|)/σ) − 1`,
clipped into `[0, 1]`. -/
def pfoldnormSpecFormula (Phi : ℚ → ℚ) (x mean sd : ℚ) : ℚ :=
  clip (Phi ((x - |mean|) / sd) + Phi ((x + |mean|) / sd) - 1) 0 1

-- ============================================================
-- Theorems
-- ============================================================

/-- C3: for every probability `p ∈ (0,1)`, location `m`, and scale
`s > 0`, `qfoldnorm p m s = qfoldnorm p (-m) s` exactly, whichever branch
(degenerate scale, extreme shape, standard) is taken: only `|m|` enters
each branch. -/
theorem qfoldnorm_sign_symmetry (normPpf : ℚ → ℚ)
    (foldnormPpf : ℚ → ℚ → ℚ → ℚ) (p m s : ℚ)
    (hp : 0 < p ∧ p < 1) (hs : 0 < s) :
    qfoldnorm normPpf foldnormPpf p m s =
      qfoldnorm normPpf foldnormPpf p (-m) s := by
  simp only [qfoldnorm, qfoldnormVal, abs_neg]

/-- Witness for C3 at `p = 1/2`, `m = 1`, `s = 1` with concrete stand-ins
for the external special functions. -/
theorem qfoldnorm_sign_symmetry_witness :
    qfoldnorm (fun _ => 0) (fun _ _ _ => 0) (1/2) 1 1 =
      qfoldnorm (fun _ => 0) (fun _ _ _ => 0) (1/2) (-1) 1 :=
  qfoldnorm_sign_symmetry (fun _ => 0) (fun _ _ _ => 0) (1/2) 1 1
    (by norm_num) (by norm_num)

/-- C4: in the non-degenerate branch (`x ≥ 0`, `1e-15 ≤ s`), `pfoldnorm`
returns exactly the two-term formula `Φ((x−|m|)/s) + Φ((x+|m|)/s) − 1`
clipped into `[0,1]`, and in particular the returned probability lies in
`[0, 1]`. -/
theorem pfoldnorm_nondegenerate_formula (Phi : ℚ → ℚ) (x m s : ℚ)
    (hx : 0 ≤ x) (hs : FOLDNORM_SD_MIN ≤ s) :
    pfoldnorm Phi x m s = .ok (pfoldnormSpecFormula Phi x m s) ∧
      0 ≤ pfoldnormSpecFormula Phi x m s ∧
      pfoldnormSpecFormula Phi x m s ≤ 1 := by
  have hspos : 0 < s := lt_of_lt_of_le (by norm_num [FOLDNORM_SD_MIN]) hs
  refine ⟨?_, ?_, ?_⟩
  · simp only [pfoldnorm, pfoldnormVal, pfoldnormSpecFormula,
      not_lt.mpr hx, if_false, not_le.mpr hspos, if_neg (not_lt.mpr hs),
      if_neg (not_le.mpr hspos)]
  · simp only [pfoldnormSpecFormula, clip]
    exact le_min (le_max_right _ _) (by positivity)
  · simp only [pfoldnormSpecFormula, clip]
    exact min_le_right _ _

/-- Witness for C4 at `x = 2`, `m = 3`, `s = 1`, `Φ` a concrete
stand-in. -/
theorem pfoldnorm_nondegenerate_formula_witness :
    pfoldnorm (fun _ => 0) 2 3 1 =
        .ok (pfoldnormSpecFormula (fun _ => 0) 2 3 1) ∧
      0 ≤ pfoldnormSpecFormula (fun _ => 0) 2 3 1 ∧
      pfoldnormSpecFormula (fun _ => 0) 2 3 1 ≤ 1 :=
  pfoldnorm_nondegenerate_formula (fun _ => 0) 2 3 1 (by norm_num)
    (by norm_num [FOLDNORM_SD_MIN])

/-- C5: for `0 < s < 1e-15` the distribution degenerates to a point mass
at `|m|`: `qfoldnorm` returns `|m|` exactly for every `p ∈ (0,1)`, and
`pfoldnorm` returns `1` when `x ≥ |m|` and `0` when `0 ≤ x < |m|`. -/
theorem foldnorm_degenerate_scale (normPpf : ℚ → ℚ)
    (foldnormPpf : ℚ → ℚ → ℚ → ℚ) (Phi : ℚ → ℚ) (p m s x : ℚ)
    (hs0 : 0 < s) (hs : s < FOLDNORM_SD_MIN) (hp : 0 < p ∧ p < 1)
    (hx : 0 ≤ x) :
    qfoldnorm normPpf foldnormPpf p m s = .ok |m| ∧
      (|m| ≤ x → pfoldnorm Phi x m s = .ok 1) ∧
      (x < |m| → pfoldnorm Phi x m s = .ok 0) := by
  refine ⟨?_, fun hge => ?_, fun hlt => ?_⟩
  · simp only [qfoldnorm, qfoldnormVal, if_neg (not_not_intro hp),
      if_neg (not_le.mpr hs0), if_pos hs]
  · simp only [pfoldnorm, pfoldnormVal, not_lt.mpr hx, if_false,
      not_le.mpr hs0, if_pos hs, if_pos hge, if_neg (not_lt.mpr hx),
      if_neg (not_le.mpr hs0)]
  · simp only [pfoldnorm, pfoldnormVal, if_pos hs,
      if_neg (not_le.mpr hlt), if_neg (not_lt.mpr hx),
      if_neg (not_le.mpr hs0)]

/-- Witness for C5 at `s = 1/10^16`, `m = -2`, `p = 1/2`, `x = 1`. -/
theorem foldnorm_degenerate_scale_witness :
    qfoldnorm (fun _ => 0) (fun _ _ _ => 0) (1/2) (-2) (1/10^16) =
        .ok |(-2 : ℚ)| ∧
      (|(-2 : ℚ)| ≤ 1 →
        pfoldnorm (fun _ => 0) 1 (-2) (1/10^16) = .ok 1) ∧
      ((1 : ℚ) < |(-2 : ℚ)| →
        pfoldnorm (fun _ => 0) 1 (-2) (1/10^16) = .ok 0) :=
  foldnorm_degenerate_scale (fun _ => 0) (fun _ _ _ => 0) (fun _ => 0)
    (1/2) (-2) (1/10^16) 1 (by norm_num)
    (by norm_num [FOLDNORM_SD_MIN]) (by norm_num) (by norm_num)

/-- C6: `qfoldnorm` raises `InvalidArgument` exactly when `p ∉ (0,1)` or
`sd ≤ 0`, and `pfoldnorm` exactly when `x < 0` or `sd ≤ 0`; validation
precedes all computation, so no partial result accompanies the error. -/
theorem foldnorm_validation_exact (normPpf : ℚ → ℚ)
    (foldnormPpf : ℚ → ℚ → ℚ → ℚ) (Phi : ℚ → ℚ) (p m sd x : ℚ) :
    (isError (qfoldnorm normPpf foldnormPpf p m sd) = true ↔
        ¬(0 < p ∧ p < 1) ∨ sd ≤ 0) ∧
      (isError (pfoldnorm Phi x m sd) = true ↔ x < 0 ∨ sd ≤ 0) := by
  constructor
  · unfold qfoldnorm
    by_cases hp : 0 < p ∧ p < 1 <;> by_cases hsd : sd ≤ 0 <;>
      simp [hp, hsd, isError]
  · unfold pfoldnorm
    by_cases hx : x < 0 <;> by_cases hsd : sd ≤ 0 <;>
      simp [hx, hsd, isError]

-- ============================================================
-- Constrained OLS (constrained_ols)
-- ============================================================

/-- Dot product of two equal-length vectors (row of `X` with `β`). -/
def dotProd (r b : List ℚ) : ℚ := ((r.zip b).map fun q => q.1 * q.2).sum

/-- Matrix-vector product `X @ β` for a design matrix given as a list of rows. -/
def matVec (X : List (List ℚ)) (b : List ℚ) : List ℚ :=
  X.map fun row => dotProd row b

/-- Residual vector `Y - X @ β`. -/
def residualsOf (Y : List ℚ) (X : List (List ℚ)) (b : List ℚ) : List ℚ :=
  (Y.zip (matVec X b)).map fun q => q.1 - q.2

/-- Sum of squares of a vector. -/
def sumSq (l : List ℚ) : ℚ := (l.map fun r => r ^ 2).sum

/-- Maximum absolute entry `np.max(np.abs(v))` of a non-empty vector; on the empty vector this
total model returns `0` (where numpy would raise), so theorems about the
empty case carry a non-emptiness hypothesis. -/
def maxAbs (l : List ℚ) : ℚ := (l.map fun x => |x|).foldr max 0

/-- The MSE objective of `constrained_ols`: `mean((Y - Xβ)²)` — mean, not
sum. -/
def mseObjective (Y : List ℚ) (X : List (List ℚ)) (b : List ℚ) : ℚ :=
  sumSq (residualsOf Y X b) / (residualsOf Y X b).length

/-- The inequality-constraint function of `constrained_ols`:
`max(|β[0:no_placebos]|) - delta`. -/
def constraintFun (delta : ℚ) (noPlacebos : ℤ) (b : List ℚ) : ℚ :=
  maxAbs (b.take noPlacebos.toNat) - delta

/-- Outcome of one `scipy.optimize.minimize` call: returned point and
success flag. -/
structure OptResult where
  x : List ℚ
  success : Bool

/-- Options passed to COBYLA on each of the two attempts. -/
structure CobylaOptions where
  maxiter : ℕ
  rhobeg : ℚ
  tol : ℚ
  catol : ℚ
deriving DecidableEq

/-- Options of the first optimization attempt. -/
def cobylaOpts1 : CobylaOptions := ⟨2000000, 1/2, 1/10^8, 1/10^10⟩

/-- Options of the retry attempt (tighter tolerances, larger budget). -/
def cobylaOpts2 : CobylaOptions := ⟨5000000, 1/10, 1/10^10, 1/10^12⟩

/-- A COBYLA minimizer: objective, starting point, constraint function,
options ↦ result.  `scipy.optimize.minimize` is external to the
repository, so it is a parameter of the embedding. -/
def CobylaMinimizer : Type :=
  (List ℚ → ℚ) → List ℚ → (List ℚ → ℚ) → CobylaOptions → OptResult

/-- Function `constrained_ols(Y, X, delta, no_placebos, start_val,
max_unconstr_coef)`: validation, fast path when the (supplied or
recomputed) maximal unconstrained placebo coefficient already meets
`delta`, otherwise one COBYLA run with a retry on failure.  The
constraint-violation warning after the run is diagnostic only and does
not change the returned value. -/
def constrained_ols (minimize : CobylaMinimizer) (Y : List ℚ)
    (X : List (List ℚ)) (delta : ℚ) (noPlacebos : ℤ) (startVal : List ℚ)
    (maxUnconstrCoef : Option ℚ) : Except EqtError (List ℚ × Bool) :=
  if delta ≤ 0 then .error .invalidArgument
  else if noPlacebos < 1 then .error .invalidArgument
  else
    let muc := match maxUnconstrCoef with
      | some v => v
      | none => maxAbs (startVal.take noPlacebos.toNat)
    if delta ≤ muc then .ok (startVal, true)
    else
      let r1 := minimize (mseObjective Y X) startVal
        (constraintFun delta noPlacebos) cobylaOpts1
      let r := if r1.success then r1
        else minimize (mseObjective Y X) startVal
          (constraintFun delta noPlacebos) cobylaOpts2
      .ok (r.x, r.success)

/-- C1: when `max_unconstr_coef` is not supplied and
`max(|start_val[0:k]|) ≥ delta`, `constrained_ols` returns the starting
vector exactly with convergence flag `true`; the result is the same for
every possible optimizer, so no optimization step is performed. -/
theorem constrained_ols_fast_path (minimize : CobylaMinimizer)
    (Y : List ℚ) (X : List (List ℚ)) (delta : ℚ) (k : ℤ)
    (startVal : List ℚ) (hk : 1 ≤ k) (hd : 0 < delta)
    (hfast : delta ≤ maxAbs (startVal.take k.toNat)) :
    constrained_ols minimize Y X delta k startVal none =
      .ok (startVal, true) := by
  simp only [constrained_ols, if_neg (not_le.mpr hd),
    if_neg (not_lt.mpr hk), if_pos hfast]

/-- Witness for C1 at `Y = [1]`, `X = [[1]]`, `delta = 1`, `k = 1`,
`start_val = [2]` (so `max(|start_val[0:1]|) = 2 ≥ 1`), with a concrete
optimizer. -/
theorem constrained_ols_fast_path_witness :
    constrained_ols (fun _ s _ _ => ⟨s, false⟩) [1] [[1]] 1 1 [2] none =
      .ok ([2], true) :=
  constrained_ols_fast_path (fun _ s _ _ => ⟨s, false⟩) [1] [[1]] 1 1 [2]
    (by norm_num) (by norm_num)
    (by norm_num [maxAbs, List.take, List.foldr])

/-- C9: when the caller supplies `max_unconstr_coef`, the fast-path
decision uses only that value: with `max(|start_val[0:k]|) < delta` but a
supplied value `v ≥ delta`, `constrained_ols` still returns `start_val`
unchanged with convergence `true`, although the returned vector violates
the constraint `max(|β[0:k]|) ≥ delta`. -/
theorem constrained_ols_trusts_supplied_max (minimize : CobylaMinimizer)
    (Y : List ℚ) (X : List (List ℚ)) (delta v : ℚ) (k : ℤ)
    (startVal : List ℚ) (hk : 1 ≤ k) (hd : 0 < delta)
    (hv : delta ≤ v) (hviol : maxAbs (startVal.take k.toNat) < delta) :
    constrained_ols minimize Y X delta k startVal (some v) =
        .ok (startVal, true) ∧
      maxAbs (startVal.take k.toNat) < delta := by
  refine ⟨?_, hviol⟩
  simp only [constrained_ols, if_neg (not_le.mpr hd),
    if_neg (not_lt.mpr hk), if_pos hv]

/-- Witness for C9 at `delta = 1`, `k = 1`, `start_val = [1/2]` (so the
true maximum `1/2 < 1`), supplied `max_unconstr_coef = 3 ≥ 1`. -/
theorem constrained_ols_trusts_supplied_max_witness :
    constrained_ols (fun _ s _ _ => ⟨s, false⟩) [1] [[1]] 1 1 [1/2]
        (some 3) = .ok ([1/2], true) ∧
      maxAbs ([(1/2 : ℚ)].take (1 : ℤ).toNat) < 1 :=
  constrained_ols_trusts_supplied_max (fun _ s _ _ => ⟨s, false⟩)
    [1] [[1]] 1 3 1 [1/2] (by norm_num) (by norm_num) (by norm_num)
    (by norm_num [maxAbs, List.take, List.foldr, abs_lt])

/-- C10: `constrained_ols` never validates `k ≤ p`.  For `k > p` (with
`k ≥ 1`, `delta > 0`, a non-empty starting vector) no error is raised,
the slice `start_val[0:k]` silently truncates to the full length-`p`
vector, and the constraint function reduces to the maximum over all `p`
coefficients of its argument. -/
theorem constrained_ols_no_k_le_p_check (minimize : CobylaMinimizer)
    (Y : List ℚ) (X : List (List ℚ)) (delta : ℚ) (k : ℤ)
    (startVal : List ℚ) (hk : 1 ≤ k) (hd : 0 < delta)
    (hne : startVal ≠ []) (hkp : (startVal.length : ℤ) < k) :
    (∃ r, constrained_ols minimize Y X delta k startVal none = .ok r) ∧
      startVal.take k.toNat = startVal ∧
      (∀ b : List ℚ, (b.length : ℤ) ≤ k →
        constraintFun delta k b = maxAbs b - delta) := by
  refine ⟨?_, ?_, fun b hb => ?_⟩
  · simp only [constrained_ols, if_neg (not_le.mpr hd),
      if_neg (not_lt.mpr hk)]
    split
    · exact ⟨_, rfl⟩
    · exact ⟨_, rfl⟩
  · exact List.take_of_length_le (by omega)
  · unfold constraintFun
    rw [List.take_of_length_le (by omega)]

/-- Witness for C10 at `start_val = [1/2]` (`p = 1`), `k = 3 > 1`,
`delta = 1`. -/
theorem constrained_ols_no_k_le_p_check_witness :
    (∃ r, constrained_ols (fun _ s _ _ => ⟨s, false⟩) [1] [[1]] 1 3 [1/2]
        none = .ok r) ∧
      [(1/2 : ℚ)].take (3 : ℤ).toNat = [(1/2 : ℚ)] ∧
      (∀ b : List ℚ, (b.length : ℤ) ≤ 3 →
        constraintFun 1 3 b = maxAbs b - 1) :=
  constrained_ols_no_k_le_p_check (fun _ s _ _ => ⟨s, false⟩) [1] [[1]]
    1 3 [1/2] (by norm_num) (by norm_num) (by simp) (by simp)

-- ============================================================
-- Residual variance estimator (sigma_hathat_c)
-- ============================================================

/-- Column count `X.shape[1]`: number of columns of the design matrix (length of its
first row in the list-of-rows model; equal to the length of every row for a
rectangular matrix). -/
def numCols (X : List (List ℚ)) : ℕ := (X.head?.getD []).length

/-- Degrees of freedom of `sigma_hathat_c`:
`df = N - p - n - T + 1` with `N = len(ID)`, `p = X.shape[1]`,
`n = len(np.unique(ID))`, `T = len(np.unique(time))`. -/
def dfOf (X : List (List ℚ)) (ID time : List ℤ) : ℤ :=
  (ID.length : ℤ) - numCols X - ID.dedup.length - time.dedup.length + 1

/-- Function `sigma_hathat_c(parameter, X, Y, ID, time)`: degrees-of-freedom
adjusted residual variance `Σ(Y − Xβ)² / df`, raising on empty
identifier sequences and on `df ≤ 0`. -/
def sigma_hathat_c (parameter : List ℚ) (X : List (List ℚ)) (Y : List ℚ)
    (ID time : List ℤ) : Except EqtError ℚ :=
  if ID.length = 0 then .error .invalidArgument
  else if time.length = 0 then .error .invalidArgument
  else
    let df := dfOf X ID time
    if df ≤ 0 then .error .degreesOfFreedomError
    else .ok (sumSq (residualsOf Y X parameter) / df)

/-- C2: for shape-consistent inputs, `sigma_hathat_c` returns
`Σ(Y − Xβ)² / df` with `df = N − p − n − T + 1` when `df > 0`, raises
`DegreesOfFreedomError` exactly when `df ≤ 0` (given non-empty `ID` and
`time`), and raises `InvalidArgument` on an empty `ID` or `time`
sequence; validation being the first step, no partial result is
produced. -/
theorem sigma_hathat_c_spec (parameter : List ℚ) (X : List (List ℚ))
    (Y : List ℚ) (ID time : List ℤ) (hID : ID ≠ []) (htime : time ≠ [])
    (hY : Y.length = ID.length) (hX : X.length = ID.length)
    (hrows : ∀ row ∈ X, row.length = parameter.length)
    (htl : time.length = ID.length) :
    (0 < dfOf X ID time →
      sigma_hathat_c parameter X Y ID time =
        .ok (sumSq (residualsOf Y X parameter) / dfOf X ID time)) ∧
      (sigma_hathat_c parameter X Y ID time =
          .error .degreesOfFreedomError ↔ dfOf X ID time ≤ 0) ∧
      (∀ ID2 time2 : List ℤ, ID2 = [] ∨ time2 = [] →
        sigma_hathat_c parameter X Y ID2 time2 =
          .error .invalidArgument) := by
  have hIDlen : ¬ ID.length = 0 := by
    simpa using fun h => hID (List.length_eq_zero.mp h)
  have htlen : ¬ time.length = 0 := by
    simpa using fun h => htime (List.length_eq_zero.mp h)
  refine ⟨fun hdf => ?_, ?_, fun ID2 time2 h2 => ?_⟩
  · simp only [sigma_hathat_c, if_neg hIDlen, if_neg htlen,
      if_neg (not_le.mpr hdf)]
  · simp only [sigma_hathat_c, if_neg hIDlen, if_neg htlen]
    constructor
    · intro h
      by_contra hpos
      rw [if_neg hpos] at h
      exact Except.noConfusion h
    · intro h
      rw [if_pos h]
  · rcases h2 with h2 | h2
    · simp [sigma_hathat_c, h2]
    · cases ID2 with
      | nil => simp [sigma_hathat_c]
      | cons a l => simp [sigma_hathat_c, h2]

/-- Witness for C2 at `parameter = [1]`, `X = [[1],[1],[1]]`,
`Y = [1,2,3]`, `ID = [0,0,7]`, `time = [0,1,0]` (so `N = 3`, `p = 1`,
`n = 2`, `T = 2`, `df = -1 ≤ 0`). -/
theorem sigma_hathat_c_spec_witness :
    (0 < dfOf [[1],[1],[1]] [0,0,7] [0,1,0] →
      sigma_hathat_c [1] [[1],[1],[1]] [1,2,3] [0,0,7] [0,1,0] =
        .ok (sumSq (residualsOf [1,2,3] [[1],[1],[1]] [1]) /
          dfOf [[1],[1],[1]] [0,0,7] [0,1,0])) ∧
      (sigma_hathat_c [1] [[1],[1],[1]] [1,2,3] [0,0,7] [0,1,0] =
          .error .degreesOfFreedomError ↔
        dfOf [[1],[1],[1]] [0,0,7] [0,1,0] ≤ 0) ∧
      (∀ ID2 time2 : List ℤ, ID2 = [] ∨ time2 = [] →
        sigma_hathat_c [1] [[1],[1],[1]] [1,2,3] ID2 time2 =
          .error .invalidArgument) :=
  sigma_hathat_c_spec [1] [[1],[1],[1]] [1,2,3] [0,0,7] [0,1,0]
    (by simp) (by simp) (by simp) (by simp)
    (by intro row hr; fin_cases hr <;> simp) (by simp)

/-- Sum of squares is non-negative. -/
theorem sumSq_nonneg (l : List ℚ) : 0 ≤ sumSq l := by
  induction l with
  | nil => simp [sumSq]
  | cons a t ih => simpa [sumSq] using add_nonneg (sq_nonneg a) ih

/-- Sum of squares vanishes exactly when every entry vanishes. -/
theorem sumSq_eq_zero_iff (l : List ℚ) : sumSq l = 0 ↔ ∀ r ∈ l, r = 0 := by
  induction l with
  | nil => simp [sumSq]
  | cons a t ih =>
    have h : sumSq (a :: t) = a ^ 2 + sumSq t := by simp [sumSq]
    rw [h, add_eq_zero_iff_of_nonneg (sq_nonneg a) (sumSq_nonneg t),
      sq_eq_zero_iff, ih, List.forall_mem_cons]

/-- C8 counterexample: at `parameter = [1]`, `X = [[1],[1],[1]]`,
`Y = [1,1,1]`, `ID = [0,0,0]`, `time = [0,0,0]` the input is well-posed
(`df = 3 − 1 − 1 − 1 + 1 = 1 > 0`) and the fit is exact, so every
residual is zero and `sigma_hathat_c` returns `0` — not strictly
positive. -/
theorem sigma_hathat_c_not_always_positive :
    0 < dfOf [[1],[1],[1]] [0,0,0] [0,0,0] ∧
      sigma_hathat_c [1] [[1],[1],[1]] [1,1,1] [0,0,0] [0,0,0] =
        .ok 0 ∧
      ¬ (0 : ℚ) < 0 := by
  refine ⟨?_, ?_, lt_irrefl 0⟩
  · simp [dfOf, numCols, List.dedup_cons_of_mem, List.dedup_nil]
  · simp [sigma_hathat_c, dfOf, numCols, residualsOf, matVec, dotProd,
      sumSq, List.dedup_cons_of_mem, List.dedup_nil]

/-- C8 (amended): for well-posed inputs (`df > 0`, non-empty
identifiers), `sigma_hathat_c` returns a non-negative value, strictly
positive exactly when some residual `Y − Xβ` is nonzero (an exact fit
yields variance `0`). -/
theorem sigma_hathat_c_nonneg (parameter : List ℚ) (X : List (List ℚ))
    (Y : List ℚ) (ID time : List ℤ) (hID : ID ≠ []) (htime : time ≠ [])
    (hdf : 0 < dfOf X ID time) :
    ∃ v, sigma_hathat_c parameter X Y ID time = .ok v ∧ 0 ≤ v ∧
      (0 < v ↔ ∃ r ∈ residualsOf Y X parameter, r ≠ 0) := by
  have hIDlen : ¬ ID.length = 0 := by
    simpa using fun h => hID (List.length_eq_zero.mp h)
  have htlen : ¬ time.length = 0 := by
    simpa using fun h => htime (List.length_eq_zero.mp h)
  have hdfQ : (0 : ℚ) < (dfOf X ID time : ℚ) := by exact_mod_cast hdf
  refine ⟨sumSq (residualsOf Y X parameter) / (dfOf X ID time : ℚ),
    ?_, ?_, ?_⟩
  · simp only [sigma_hathat_c, if_neg hIDlen, if_neg htlen,
      if_neg (not_le.mpr hdf)]
  · exact div_nonneg (sumSq_nonneg _) (le_of_lt hdfQ)
  · rw [lt_div_iff₀ hdfQ, zero_mul]
    constructor
    · intro hpos
      by_contra hall
      push_neg at hall
      rw [(sumSq_eq_zero_iff _).mpr hall] at hpos
      exact lt_irrefl 0 hpos
    · intro ⟨r, hr, hrne⟩
      rcases lt_or_eq_of_le (sumSq_nonneg (residualsOf Y X parameter))
        with hlt | heq
      · exact hlt
      · exact absurd ((sumSq_eq_zero_iff _).mp heq.symm r hr) hrne

/-- Witness for C8 (amended) at `parameter = [0]`, `X = [[1],[1],[1]]`,
`Y = [1,2,3]`, `ID = [0,0,0]`, `time = [0,0,0]`: `df = 1 > 0`. -/
theorem sigma_hathat_c_nonneg_witness :
    ∃ v, sigma_hathat_c [0] [[1],[1],[1]] [1,2,3] [0,0,0] [0,0,0] =
        .ok v ∧ 0 ≤ v ∧
      (0 < v ↔ ∃ r ∈ residualsOf [1,2,3] [[1],[1],[1]] [0], r ≠ 0) :=
  sigma_hathat_c_nonneg [0] [[1],[1],[1]] [1,2,3] [0,0,0] [0,0,0]
    (by simp) (by simp)
    (by simp [dfOf, numCols, List.dedup_cons_of_mem, List.dedup_nil])

-- ============================================================
-- IU threshold search (find_min_threshold_iu)
-- ============================================================

/-- The `1e20` penalty scale of the IU objective. -/
def IU_SCALE : ℚ := 10 ^ 20

/-- The IU objective `1e20 * (pfoldnorm(coef, delta, sd) - alpha)²`.  For
`coef ≥ 0` and `sd > 0` the inner `pfoldnorm` call always passes its
validation, so its value function is used. -/
def iuObjective (Phi : ℚ → ℚ) (coef sd alpha : ℚ) (delta : ℚ) : ℚ :=
  IU_SCALE * (pfoldnormVal Phi coef delta sd - alpha) ^ 2

/-- A bounded scalar minimizer (`scipy.optimize.minimize_scalar`,
bounded method): objective, lower bound, upper bound ↦ minimizing
point.  External to the repository, hence a parameter. -/
def ScalarMinimizer : Type := (ℚ → ℚ) → ℚ → ℚ → ℚ

/-- The documented contract of a bounded scalar minimizer: on a
well-ordered interval it returns a point inside the interval. -/
def RespectsBounds (ms : ScalarMinimizer) : Prop :=
  ∀ f lo hi, lo ≤ hi → lo ≤ ms f lo hi ∧ ms f lo hi ≤ hi

/-- Function `find_min_threshold_iu(coef, sd, alpha)`: validation, then bounded
minimization of the IU objective over the interval with raw endpoints
`max(0, coef - 10*sd)` and `10*sd`, the two endpoints being swapped
(`lower = min`, `upper = max`) when the first exceeds the second. -/
def find_min_threshold_iu (Phi : ℚ → ℚ) (minimizeScalar : ScalarMinimizer)
    (coef sd alpha : ℚ) : Except EqtError ℚ :=
  if coef < 0 then .error .invalidArgument
  else if sd ≤ 0 then .error .invalidArgument
  else if ¬(0 < alpha ∧ alpha < 1) then .error .invalidArgument
  else
    let lowerR := max 0 (coef - 10 * sd)
    let upperR := 10 * sd
    let lower := min lowerR upperR
    let upper := max lowerR upperR
    .ok (minimizeScalar (iuObjective Phi coef sd alpha) lower upper)

/-- C7: for `coef ≥ 0`, `sd > 0`, `alpha ∈ (0,1)` and any bounded
minimizer honouring its bounds, `find_min_threshold_iu` raises no error —
even when `coef - 10*sd > 10*sd`, thanks to the endpoint swap — and the
returned `δ` lies in the swapped interval
`[min(max(0, coef−10·sd), 10·sd), max(max(0, coef−10·sd), 10·sd)]`. -/
theorem find_min_threshold_iu_in_bounds (Phi : ℚ → ℚ)
    (ms : ScalarMinimizer) (coef sd alpha : ℚ) (hms : RespectsBounds ms)
    (hc : 0 ≤ coef) (hs : 0 < sd) (ha : 0 < alpha ∧ alpha < 1) :
    ∃ δ, find_min_threshold_iu Phi ms coef sd alpha = .ok δ ∧
      min (max 0 (coef - 10 * sd)) (10 * sd) ≤ δ ∧
      δ ≤ max (max 0 (coef - 10 * sd)) (10 * sd) := by
  have hbounds := hms (iuObjective Phi coef sd alpha)
    (min (max 0 (coef - 10 * sd)) (10 * sd))
    (max (max 0 (coef - 10 * sd)) (10 * sd)) (min_le_max)
  refine ⟨_, ?_, hbounds.1, hbounds.2⟩
  simp only [find_min_threshold_iu, if_neg (not_lt.mpr hc),
    if_neg (not_le.mpr hs), if_neg (not_not_intro ha)]

/-- Witness for C7 at `coef = 300`, `sd = 1`, `alpha = 1/2` (a case where
the raw endpoints `290` and `10` are out of order and get swapped), with
the left-endpoint minimizer. -/
theorem find_min_threshold_iu_in_bounds_witness :
    ∃ δ, find_min_threshold_iu (fun _ => 0) (fun _ lo _ => lo) 300 1
        (1/2) = .ok δ ∧
      min (max 0 (300 - 10 * 1)) (10 * 1) ≤ δ ∧
      δ ≤ max (max 0 ((300 : ℚ) - 10 * 1)) (10 * 1) :=
  find_min_threshold_iu_in_bounds (fun _ => 0) (fun _ lo _ => lo) 300 1
    (1/2) (fun _ lo _ h => ⟨le_refl lo, h⟩) (by norm_num) (by norm_num)
    (by norm_num)
